import Mathlib

/-
Verification development for the speech-segment ingestion, speaker
diarization, and translation-relay pipeline of the free-cluely repository.

Shallow embedding notes:
* JavaScript code is single threaded; asynchronous functions suspend only
  at awaits.  The translation queue is therefore modelled as a
  deterministic step machine over an explicit event list (enqueue events,
  network completion events, configuration events).
* JavaScript numbers used here (millisecond timestamps, counters) are
  small integers, modelled as Nat; the one subtraction that can go
  negative (the diarization gap) is computed in Int, as in the source.
* Recognizer confidence scores are carried opaquely (no claim computes
  with them), so they are modelled as Option Nat placeholders.
* Strings are Lean strings; the JavaScript trim and template-literal
  number rendering are modelled explicitly below so that everything
  reduces in the kernel.
-/

/-- Whitespace test used by the model of the JavaScript trim: the ASCII
whitespace characters that occur in practice. -/
def jsWhitespace (c : Char) : Bool :=
  c == ' ' || c == '\t' || c == '\n' || c == '\r'

/-- Model of the JavaScript String.prototype.trim: drop whitespace from
both ends. -/
def jsTrim (s : String) : String :=
  ⟨((s.data.dropWhile jsWhitespace).reverse.dropWhile jsWhitespace).reverse⟩

/-- Decimal digits of a natural number rendered as characters, most
significant first.  Fuel-based structural recursion so that it reduces in
the kernel; any fuel above the argument is enough. -/
def toDecimalAux : Nat → Nat → List Char
  | 0, _ => []
  | fuel + 1, n =>
      if n < 10 then [Nat.digitChar n]
      else toDecimalAux fuel (n / 10) ++ [Nat.digitChar (n % 10)]

/-- Model of the JavaScript number-to-string conversion used by template
literals, restricted to natural numbers. -/
def natToString (n : Nat) : String :=
  ⟨toDecimalAux (n + 1) n⟩

theorem toDecimalAux_fuel :
    ∀ f1 f2 n, n < f1 → n < f2 → toDecimalAux f1 n = toDecimalAux f2 n := by
  intro f1
  induction f1 with
  | zero => intro f2 n h1; omega
  | succ g ih =>
    intro f2 n h1 h2
    cases f2 with
    | zero => omega
    | succ g2 =>
      by_cases hn : n < 10
      · simp [toDecimalAux, hn]
      · have hdiv : n / 10 < n := Nat.div_lt_self (by omega) (by omega)
        have h1' : n / 10 < g := by omega
        have h2' : n / 10 < g2 := by omega
        simp [toDecimalAux, hn, ih g2 (n / 10) h1' h2']

theorem toDecimalAux_ne_nil :
    ∀ f n, n < f → toDecimalAux f n ≠ [] := by
  intro f n h
  cases f with
  | zero => omega
  | succ g =>
    by_cases hn : n < 10
    · simp [toDecimalAux, hn]
    · simp [toDecimalAux, hn]

theorem toDecimalAux_digits :
    ∀ f n, n < f → ∀ c ∈ toDecimalAux f n, ∃ d, d < 10 ∧ c = Nat.digitChar d := by
  intro f
  induction f with
  | zero => intro n h; omega
  | succ g ih =>
    intro n h c hc
    by_cases hn : n < 10
    · simp [toDecimalAux, hn] at hc
      exact ⟨n, hn, hc⟩
    · simp [toDecimalAux, hn] at hc
      rcases hc with hc | hc
      · have hdiv : n / 10 < n := Nat.div_lt_self (by omega) (by omega)
        exact ih (n / 10) (by omega) c hc
      · exact ⟨n % 10, Nat.mod_lt _ (by omega), hc⟩

theorem digitChar_injOn :
    ∀ a, a < 10 → ∀ b, b < 10 → Nat.digitChar a = Nat.digitChar b → a = b := by
  decide

theorem digitChar_ne_underscore :
    ∀ d, d < 10 → Nat.digitChar d ≠ '_' := by
  decide

theorem toDecimalAux_inj :
    ∀ f n m, n < f → m < f → toDecimalAux f n = toDecimalAux f m → n = m := by
  intro f
  induction f with
  | zero => intro n m h1; omega
  | succ g ih =>
    intro n m h1 h2 heq
    by_cases hn : n < 10
    · by_cases hm : m < 10
      · simp [toDecimalAux, hn, hm] at heq
        exact digitChar_injOn n hn m hm heq
      · exfalso
        have hdiv : m / 10 < m := Nat.div_lt_self (by omega) (by omega)
        have hne := toDecimalAux_ne_nil g (m / 10) (by omega)
        simp [toDecimalAux, hn, hm] at heq
        have hlen := congrArg List.length heq
        simp at hlen
        cases hlist : toDecimalAux g (m / 10) with
        | nil => exact hne hlist
        | cons a l => rw [hlist] at hlen; simp at hlen
    · by_cases hm : m < 10
      · exfalso
        have hdiv : n / 10 < n := Nat.div_lt_self (by omega) (by omega)
        have hne := toDecimalAux_ne_nil g (n / 10) (by omega)
        simp [toDecimalAux, hn, hm] at heq
        have hlen := congrArg List.length heq
        simp at hlen
        cases hlist : toDecimalAux g (n / 10) with
        | nil => exact hne hlist
        | cons a l => rw [hlist] at hlen; simp at hlen
      · simp [toDecimalAux, hn, hm] at heq
        have hrev := congrArg List.reverse heq
        simp at hrev
        have hhead : Nat.digitChar (n % 10) = Nat.digitChar (m % 10) := hrev.1
        have htail : toDecimalAux g (n / 10) = toDecimalAux g (m / 10) := by
          have := hrev.2
          have := congrArg List.reverse this
          simpa using this
        have hmod : n % 10 = m % 10 :=
          digitChar_injOn _ (Nat.mod_lt _ (by omega)) _ (Nat.mod_lt _ (by omega)) hhead
        have hndiv : n / 10 < n := Nat.div_lt_self (by omega) (by omega)
        have hmdiv : m / 10 < m := Nat.div_lt_self (by omega) (by omega)
        have hdiv : n / 10 = m / 10 := ih (n / 10) (m / 10) (by omega) (by omega) htail
        omega

theorem natToString_inj :
    ∀ n m, natToString n = natToString m → n = m := by
  intro n m h
  have hdata : toDecimalAux (n + 1) n = toDecimalAux (m + 1) m := by
    simpa [natToString] using congrArg String.data h
  have h1 : toDecimalAux (n + 1) n = toDecimalAux (n + m + 1) n :=
    toDecimalAux_fuel (n + 1) (n + m + 1) n (by omega) (by omega)
  have h2 : toDecimalAux (m + 1) m = toDecimalAux (n + m + 1) m :=
    toDecimalAux_fuel (m + 1) (n + m + 1) m (by omega) (by omega)
  exact toDecimalAux_inj (n + m + 1) n m (by omega) (by omega) (by rw [← h1, ← h2, hdata])

theorem natToString_no_underscore :
    ∀ n, ∀ c ∈ (natToString n).data, c ≠ '_' := by
  intro n c hc
  have := toDecimalAux_digits (n + 1) n (by omega) c (by simpa [natToString] using hc)
  rcases this with ⟨d, hd, hcd⟩
  rw [hcd]
  exact digitChar_ne_underscore d hd

/-
SpeakerDetector, from src/unnamed/part_000 lines 193-225 (the diarization
variant of the speech-recognition hook).
-/

/-- State of the SpeakerDetector class: lastSpeechTime, currentSpeaker and
the bounded speakerHistory of (speaker, time) pairs. -/
structure DetectorState where
  lastSpeechTime : Nat
  currentSpeaker : Nat
  speakerHistory : List (Nat × Nat)
deriving DecidableEq

/-- The SPEAKER_SWITCH_THRESHOLD constant: 2 seconds of silence suggests a
speaker change. -/
def SPEAKER_SWITCH_THRESHOLD : Int := 2000

/-- Initial detector state; reset() restores exactly this state. -/
def detectorInit : DetectorState :=
  { lastSpeechTime := 0, currentSpeaker := 1, speakerHistory := [] }

/-- SpeakerDetector.detectSpeaker: computes the silence gap (an Int, as the
JavaScript subtraction can be negative), toggles currentSpeaker when the
gap exceeds the threshold and lastSpeechTime is positive, records the
timestamp, pushes onto the history (shifting when length exceeds 20), and
returns the label. -/
def detectSpeaker (s : DetectorState) (timestamp : Nat) : String × DetectorState :=
  let timeSinceLastSpeech : Int := (timestamp : Int) - (s.lastSpeechTime : Int)
  let newSpeaker : Nat :=
    if SPEAKER_SWITCH_THRESHOLD < timeSinceLastSpeech ∧ 0 < s.lastSpeechTime then
      (if s.currentSpeaker = 1 then 2 else 1)
    else s.currentSpeaker
  let pushed := s.speakerHistory ++ [(newSpeaker, timestamp)]
  let bounded := if 20 < pushed.length then pushed.tail else pushed
  ("Speaker " ++ natToString newSpeaker,
   { lastSpeechTime := timestamp, currentSpeaker := newSpeaker, speakerHistory := bounded })

/-- Detector states reachable in the program: the freshly constructed (or
freshly reset) state, followed by any sequence of detectSpeaker calls. -/
inductive DetReachable : DetectorState → Prop where
  | init : DetReachable detectorInit
  | step (s : DetectorState) (t : Nat) :
      DetReachable s → DetReachable (detectSpeaker s t).2

theorem detReachable_speaker_mem :
    ∀ s, DetReachable s → s.currentSpeaker = 1 ∨ s.currentSpeaker = 2 := by
  intro s h
  induction h with
  | init => left; rfl
  | step s t _ ih =>
    simp only [detectSpeaker]
    split
    · split
      · right; rfl
      · left; rfl
    · exact ih

/-
TranslationService and TranslationStream, from
src/src/services/translation.ts.
-/

/-- Result record returned by TranslationService.translate. -/
structure TranslationResult where
  translatedText : String
  sourceLanguage : String
  targetLanguage : String
  confidence : Option Nat
deriving DecidableEq

/-- Outcome of the single fetch performed by translate: the request threw
(network error), the response was not ok (non-2xx), or it was ok with an
optional translatedText field and an optional detectedLanguage object
carrying a language and an optional confidence. -/
inductive NetResponse where
  | thrown
  | notOk
  | ok (translatedText : Option String) (detectedLanguage : Option (String × Option Nat))
deriving DecidableEq

/-- The JavaScript or-else idiom value1 OR value2 on an optional string,
where the empty string is falsy. -/
def jsOrString (o : Option String) (dflt : String) : String :=
  match o with
  | some s => if s = "" then dflt else s
  | none => dflt

/-- TranslationService.translate: empty trimmed input short-circuits to an
empty translation without any request; otherwise the fetch outcome decides
between the parsed response and the fail-open fallback returning the
original text. -/
def TranslationService.translate (text targetLang sourceLang : String) (resp : NetResponse) : TranslationResult :=
  if jsTrim text = "" then
    { translatedText := "", sourceLanguage := sourceLang,
      targetLanguage := targetLang, confidence := none }
  else
    match resp with
    | .ok tt dl =>
        { translatedText := jsOrString tt text
          sourceLanguage := jsOrString (dl.map Prod.fst) sourceLang
          targetLanguage := targetLang
          confidence := dl.bind Prod.snd }
    | _ =>
        { translatedText := text, sourceLanguage := sourceLang,
          targetLanguage := targetLang, confidence := none }

/-- Whether TranslationService.translate reaches its fetch call: exactly
when the trimmed input is non-empty. -/
def translateIssuesRequest (text : String) : Bool :=
  !(jsTrim text = "")

/-- An in-flight translation request of the stream: the dequeued text, the
languages passed to translate, and the promise id of the addText caller
awaiting this processQueue run (none for the self-driving drain calls,
whose results are discarded). -/
structure InFlight where
  text : String
  target : String
  source : String
  origin : Option Nat
deriving DecidableEq

/-- State of a TranslationStream plus the bookkeeping of the surrounding
event loop: pendingTexts and isProcessing are the fields of the class;
inFlight is the multiset of outstanding fetches (a list, so that the
at-most-one property is provable rather than built in); resolved records
each settled addText promise by id; nextId numbers addText calls. -/
structure StreamState where
  pendingTexts : List String
  isProcessing : Bool
  inFlight : List InFlight
  targetLang : String
  sourceLang : String
  resolved : List (Nat × Option TranslationResult)
  nextId : Nat
deriving DecidableEq

/-- A freshly constructed TranslationStream. -/
def streamInit (targetLang sourceLang : String) : StreamState :=
  { pendingTexts := [], isProcessing := false, inFlight := [],
    targetLang := targetLang, sourceLang := sourceLang, resolved := [], nextId := 0 }

/-- Settle a promise: record the value under the caller id, or discard it
when nobody awaits it. -/
def resolvePromise (origin : Option Nat) (r : Option TranslationResult) (s : StreamState) : StreamState :=
  match origin with
  | some i => { s with resolved := s.resolved ++ [(i, r)] }
  | none => s

/-- TranslationStream.processQueue up to its await: if isProcessing is set
or the queue is empty it returns null at once; otherwise it sets
isProcessing, shifts the queue and starts the fetch for the head with the
target language current at this moment.  (The source guard reads
isProcessing OR empty before shifting; matching on the queue first is
equivalent.) -/
def processQueue (s : StreamState) (origin : Option Nat) : StreamState :=
  match s.pendingTexts with
  | [] => resolvePromise origin none s
  | t :: rest =>
      if s.isProcessing then resolvePromise origin none s
      else { s with pendingTexts := rest, isProcessing := true,
                    inFlight := s.inFlight ++
                      [{ text := t, target := s.targetLang, source := s.sourceLang,
                         origin := origin }] }

/-- TranslationStream.addText: an empty trimmed text resolves to null
without touching the queue; otherwise the text is pushed and processQueue
is invoked on behalf of this call. -/
def addText (s : StreamState) (text : String) : StreamState :=
  let pid := s.nextId
  let s1 := { s with nextId := pid + 1 }
  if jsTrim text = "" then resolvePromise (some pid) none s1
  else processQueue { s1 with pendingTexts := s1.pendingTexts ++ [text] } (some pid)

/-- Resumption of processQueue after its await resolves with resp: clear
isProcessing, launch the self-driving drain when the queue is non-empty,
and settle the promise of the originating caller with the translate
result. -/
def completeRequest (s : StreamState) (resp : NetResponse) : StreamState :=
  match s.inFlight with
  | [] => s
  | fl :: rest =>
      let result := TranslationService.translate fl.text fl.target fl.source resp
      let s1 := { s with inFlight := rest, isProcessing := false }
      let s2 :=
        match s1.pendingTexts with
        | [] => s1
        | _ :: _ => processQueue s1 none
      resolvePromise fl.origin (some result) s2

/-- Events interleaved by the single-threaded event loop: an addText call,
the completion of the oldest outstanding fetch, setTargetLanguage, and
clear. -/
inductive StreamEv where
  | enqueue (text : String)
  | complete (resp : NetResponse)
  | setLang (lang : String)
  | clearPending
deriving DecidableEq

/-- One event-loop step of the stream. -/
def streamStep (s : StreamState) : StreamEv → StreamState
  | .enqueue text => addText s text
  | .complete resp => completeRequest s resp
  | .setLang lang => { s with targetLang := lang }
  | .clearPending => { s with pendingTexts := [] }

/-- Run of the stream over an event list. -/
def streamRun (s : StreamState) (evs : List StreamEv) : StreamState :=
  evs.foldl streamStep s

theorem resolvePromise_inFlight (o : Option Nat) (r : Option TranslationResult) (s : StreamState) :
    (resolvePromise o r s).inFlight = s.inFlight := by
  cases o <;> simp [resolvePromise]

theorem resolvePromise_pendingTexts (o : Option Nat) (r : Option TranslationResult) (s : StreamState) :
    (resolvePromise o r s).pendingTexts = s.pendingTexts := by
  cases o <;> simp [resolvePromise]

theorem addText_empty (s : StreamState) (text : String) (h : jsTrim text = "") :
    addText s text =
      { s with nextId := s.nextId + 1, resolved := s.resolved ++ [(s.nextId, none)] } := by
  simp [addText, resolvePromise, h]

theorem addText_busy (s : StreamState) (text : String)
    (h1 : jsTrim text ≠ "") (h2 : s.isProcessing = true) :
    addText s text =
      { s with nextId := s.nextId + 1, pendingTexts := s.pendingTexts ++ [text],
               resolved := s.resolved ++ [(s.nextId, none)] } := by
  cases hq : s.pendingTexts with
  | nil => simp [addText, processQueue, resolvePromise, h1, h2, hq]
  | cons a l => simp [addText, processQueue, resolvePromise, h1, h2, hq]

theorem addText_idle (s : StreamState) (text : String)
    (h1 : jsTrim text ≠ "") (h2 : s.isProcessing = false) (h3 : s.pendingTexts = []) :
    addText s text =
      { s with nextId := s.nextId + 1, isProcessing := true,
               inFlight := s.inFlight ++
                 [{ text := text, target := s.targetLang, source := s.sourceLang,
                    origin := some s.nextId }] } := by
  simp [addText, processQueue, h1, h2, h3]

theorem completeRequest_nil (s : StreamState) (resp : NetResponse) (h : s.inFlight = []) :
    completeRequest s resp = s := by
  simp [completeRequest, h]

theorem completeRequest_empty (s : StreamState) (resp : NetResponse)
    (fl : InFlight) (rest : List InFlight)
    (h1 : s.inFlight = fl :: rest) (h2 : s.pendingTexts = []) :
    completeRequest s resp =
      resolvePromise fl.origin (some (TranslationService.translate fl.text fl.target fl.source resp))
        { s with inFlight := rest, isProcessing := false } := by
  simp [completeRequest, h1, h2]

theorem completeRequest_drain (s : StreamState) (resp : NetResponse)
    (fl : InFlight) (rest : List InFlight) (t : String) (ts : List String)
    (h1 : s.inFlight = fl :: rest) (h2 : s.pendingTexts = t :: ts) :
    completeRequest s resp =
      resolvePromise fl.origin (some (TranslationService.translate fl.text fl.target fl.source resp))
        { s with inFlight := rest ++
                   [{ text := t, target := s.targetLang, source := s.sourceLang, origin := none }],
                 pendingTexts := ts, isProcessing := true } := by
  simp [completeRequest, processQueue, h1, h2]

/-- Invariant of the stream machine: the isProcessing flag counts the
outstanding fetches (hence at most one in flight); when idle the queue is
fully drained; and every addText promise issued so far is either settled
or awaiting the outstanding fetch. -/
def StreamInv (s : StreamState) : Prop :=
  (s.inFlight.length = if s.isProcessing then 1 else 0)
  ∧ (s.isProcessing = false → s.pendingTexts = [])
  ∧ (∀ i, i < s.nextId →
      (∃ r, (i, r) ∈ s.resolved) ∨ (∃ fl ∈ s.inFlight, fl.origin = some i))

theorem streamInv_init (targetLang sourceLang : String) :
    StreamInv (streamInit targetLang sourceLang) := by
  refine ⟨rfl, fun _ => rfl, ?_⟩
  intro i hi
  simp [streamInit] at hi


theorem resolvePromise_isProcessing (o : Option Nat) (r : Option TranslationResult) (s : StreamState) :
    (resolvePromise o r s).isProcessing = s.isProcessing := by
  cases o <;> simp [resolvePromise]

theorem resolvePromise_nextId (o : Option Nat) (r : Option TranslationResult) (s : StreamState) :
    (resolvePromise o r s).nextId = s.nextId := by
  cases o <;> simp [resolvePromise]

theorem streamInv_step (s : StreamState) (ev : StreamEv)
    (h : StreamInv s) : StreamInv (streamStep s ev) := by
  obtain ⟨h1, h2, h3⟩ := h
  cases ev with
  | setLang lang =>
    refine ⟨h1, h2, ?_⟩
    intro i hi
    simpa [streamStep] using h3 i hi
  | clearPending =>
    refine ⟨h1, fun _ => rfl, ?_⟩
    intro i hi
    simpa [streamStep] using h3 i hi
  | enqueue text =>
    by_cases he : jsTrim text = ""
    · rw [streamStep, addText_empty s text he]
      refine ⟨h1, h2, ?_⟩
      intro i hi
      simp at hi
      rcases Nat.lt_or_ge i s.nextId with hlt | hge
      · rcases h3 i hlt with ⟨r, hr⟩ | hfl
        · exact Or.inl ⟨r, by simp [hr]⟩
        · exact Or.inr hfl
      · have : i = s.nextId := by omega
        subst this
        exact Or.inl ⟨none, by simp⟩
    · cases hp : s.isProcessing with
      | true =>
        rw [streamStep, addText_busy s text he hp]
        refine ⟨h1, by simp [hp], ?_⟩
        intro i hi
        simp at hi
        rcases Nat.lt_or_ge i s.nextId with hlt | hge
        · rcases h3 i hlt with ⟨r, hr⟩ | hfl
          · exact Or.inl ⟨r, by simp [hr]⟩
          · exact Or.inr hfl
        · have : i = s.nextId := by omega
          subst this
          exact Or.inl ⟨none, by simp⟩
      | false =>
        have hq := h2 hp
        have hfl0 : s.inFlight = [] := by
          have h1' := h1
          rw [hp] at h1'
          simpa using List.length_eq_zero.mp (by simpa using h1')
        rw [streamStep, addText_idle s text he hp hq]
        refine ⟨by simp [hfl0], by simp, ?_⟩
        intro i hi
        simp at hi
        rcases Nat.lt_or_ge i s.nextId with hlt | hge
        · rcases h3 i hlt with ⟨r, hr⟩ | ⟨fl, hfl, _⟩
          · exact Or.inl ⟨r, hr⟩
          · rw [hfl0] at hfl; simp at hfl
        · have : i = s.nextId := by omega
          subst this
          exact Or.inr ⟨{ text := text, target := s.targetLang, source := s.sourceLang,
                          origin := some s.nextId }, by simp, rfl⟩
  | complete resp =>
    cases hf : s.inFlight with
    | nil =>
      rw [streamStep, completeRequest_nil s resp hf]
      exact ⟨h1, h2, h3⟩
    | cons fl rest =>
      have hp : s.isProcessing = true := by
        cases hsp : s.isProcessing
        · rw [hsp, hf] at h1; simp at h1
        · rfl
      have hrest : rest = [] := by
        rw [hf, hp] at h1
        simpa using List.length_eq_zero.mp (by simpa using h1)
      subst hrest
      cases hq : s.pendingTexts with
      | nil =>
        rw [streamStep, completeRequest_empty s resp fl [] hf hq]
        cases ho : fl.origin with
        | none =>
          refine ⟨by simp [resolvePromise], fun _ => by simp [resolvePromise, hq], ?_⟩
          intro i hi
          rw [resolvePromise_nextId] at hi
          simp only [resolvePromise]
          rcases h3 i hi with ⟨r, hr⟩ | ⟨fl2, hfl2, horig⟩
          · exact Or.inl ⟨r, hr⟩
          · rw [hf] at hfl2
            simp at hfl2
            rw [hfl2] at horig
            rw [ho] at horig
            cases horig
        | some j =>
          refine ⟨by simp [resolvePromise], fun _ => by simp [resolvePromise, hq], ?_⟩
          intro i hi
          rw [resolvePromise_nextId] at hi
          simp only [resolvePromise]
          rcases h3 i hi with ⟨r, hr⟩ | ⟨fl2, hfl2, horig⟩
          · exact Or.inl ⟨r, by simp [hr]⟩
          · rw [hf] at hfl2
            simp at hfl2
            rw [hfl2] at horig
            rw [ho] at horig
            injection horig with hij
            exact Or.inl ⟨some (TranslationService.translate fl.text fl.target fl.source resp),
              by simp [hij]⟩
      | cons t ts =>
        rw [streamStep, completeRequest_drain s resp fl [] t ts hf hq]
        cases ho : fl.origin with
        | none =>
          refine ⟨by simp [resolvePromise], ?_, ?_⟩
          · intro hcon
            rw [resolvePromise_isProcessing] at hcon
            simp at hcon
          · intro i hi
            rw [resolvePromise_nextId] at hi
            simp only [resolvePromise]
            rcases h3 i hi with ⟨r, hr⟩ | ⟨fl2, hfl2, horig⟩
            · exact Or.inl ⟨r, hr⟩
            · rw [hf] at hfl2
              simp at hfl2
              rw [hfl2] at horig
              rw [ho] at horig
              cases horig
        | some j =>
          refine ⟨by simp [resolvePromise], ?_, ?_⟩
          · intro hcon
            rw [resolvePromise_isProcessing] at hcon
            simp at hcon
          · intro i hi
            rw [resolvePromise_nextId] at hi
            simp only [resolvePromise]
            rcases h3 i hi with ⟨r, hr⟩ | ⟨fl2, hfl2, horig⟩
            · exact Or.inl ⟨r, by simp [hr]⟩
            · rw [hf] at hfl2
              simp at hfl2
              rw [hfl2] at horig
              rw [ho] at horig
              injection horig with hij
              exact Or.inl ⟨some (TranslationService.translate fl.text fl.target fl.source resp),
                by simp [hij]⟩

theorem streamInv_run (s : StreamState) (evs : List StreamEv)
    (h : StreamInv s) : StreamInv (streamRun s evs) := by
  induction evs generalizing s with
  | nil => exact h
  | cons ev rest ih => exact ih (streamStep s ev) (streamInv_step s ev h)

/-
Segment assembly: the onresult handler of useSpeechRecognition
(src/unnamed/part_000 lines 256-282, diarization variant) and the onerror
handler (lines 285-308).
-/

/-- TranscriptSegment record emitted to the consumer callback. -/
structure TranscriptSegment where
  id : String
  speaker : String
  text : String
  timestamp : Nat
  confidence : Option Nat
deriving DecidableEq

/-- The fields of a recognition event consumed by the handler: transcript
and confidence of the highest-confidence alternative of the last result,
and its isFinal flag. -/
structure RecognitionResult where
  transcript : String
  confidence : Option Nat
  isFinal : Bool
deriving DecidableEq

/-- Handler state: the per-session segment counter and the speaker
detector. -/
structure AssemblerState where
  segmentCounter : Nat
  detector : DetectorState
deriving DecidableEq

/-- The template literal segment_(timestamp)_(counter) building segment
ids. -/
def segId (timestamp counter : Nat) : String :=
  "segment_" ++ natToString timestamp ++ "_" ++ natToString counter

/-- The onresult handler: interim results and final results with empty
trimmed transcript produce nothing; a final result with non-empty trimmed
text builds one segment (speaker from the detector when diarization is
enabled, else the fixed label) and post-increments the counter. -/
def onresult (st : AssemblerState) (enableDiarization : Bool)
    (r : RecognitionResult) (now : Nat) : AssemblerState × Option TranscriptSegment :=
  if r.isFinal = true ∧ jsTrim r.transcript ≠ "" then
    let speakerDet :=
      if enableDiarization then detectSpeaker st.detector now
      else ("You", st.detector)
    ({ segmentCounter := st.segmentCounter + 1, detector := speakerDet.2 },
     some { id := segId now st.segmentCounter, speaker := speakerDet.1,
            text := jsTrim r.transcript, timestamp := now, confidence := r.confidence })
  else (st, none)

/-- Fold of the onresult handler over a list of recognition events paired
with their capture timestamps, collecting the emitted segments in order. -/
def runAssembler (enableDiarization : Bool) :
    AssemblerState → List (RecognitionResult × Nat) → AssemblerState × List TranscriptSegment
  | st, [] => (st, [])
  | st, (r, t) :: rest =>
      let p := onresult st enableDiarization r t
      let q := runAssembler enableDiarization p.1 rest
      (q.1, p.2.toList ++ q.2)

/-- The ids a run starting at counter c assigns to a list of events that
all emit segments. -/
def expectedIds (c : Nat) : List (RecognitionResult × Nat) → List String
  | [] => []
  | (_, t) :: rest => segId t c :: expectedIds (c + 1) rest

/-- Outcome of one onerror invocation: whether console.error ran, the
arguments of the onError callback invocations, and whether a retry timer
was scheduled. -/
structure ErrorOutcome where
  loggedAsError : Bool
  onErrorCalls : List String
  retryScheduled : Bool
deriving DecidableEq

/-- The onerror handler: console.error always runs first; no-speech and
aborted then return early; every other code is passed to onError once;
network and audio-capture additionally schedule the 1-second retry
timer. -/
def onerror (error : String) : ErrorOutcome :=
  if error = "no-speech" then
    { loggedAsError := true, onErrorCalls := [], retryScheduled := false }
  else if error = "aborted" then
    { loggedAsError := true, onErrorCalls := [], retryScheduled := false }
  else
    { loggedAsError := true, onErrorCalls := [error],
      retryScheduled := (error == "network" || error == "audio-capture") }

/-- When the retry timer fires it calls startListening only if the
listening flag is still set. -/
def retryFires (o : ErrorOutcome) (isListeningAtFire : Bool) : Bool :=
  o.retryScheduled && isListeningAtFire

theorem takeWhile_append_stop {α : Type} (q : α → Bool) :
    ∀ (l : List α) (x : α) (r : List α), (∀ c ∈ l, q c = true) → q x = false →
      (l ++ x :: r).takeWhile q = l := by
  intro l
  induction l with
  | nil =>
    intro x r _ hx
    simp [List.takeWhile, hx]
  | cons a as ih =>
    intro x r hl hx
    have ha : q a = true := hl a (by simp)
    simp only [List.cons_append, List.takeWhile, ha]
    simp [ih x r (fun c hc => hl c (by simp [hc])) hx]

theorem suffix_after_sep (sep : Char) (d1 x1 d2 x2 : List Char)
    (h1 : ∀ c ∈ d1, (c != sep) = true) (h2 : ∀ c ∈ d2, (c != sep) = true)
    (heq : d1 ++ sep :: x1 = d2 ++ sep :: x2) : d1 = d2 := by
  have hs : (sep != sep) = false := by simp
  have e1 : List.takeWhile (fun c => c != sep) (d1 ++ sep :: x1) = d1 :=
    takeWhile_append_stop _ _ sep _ h1 hs
  have e2 : List.takeWhile (fun c => c != sep) (d2 ++ sep :: x2) = d2 :=
    takeWhile_append_stop _ _ sep _ h2 hs
  have htw := congrArg (List.takeWhile (fun c => c != sep)) heq
  rw [e1, e2] at htw
  exact htw

theorem segId_counter_inj :
    ∀ t1 c1 t2 c2, segId t1 c1 = segId t2 c2 → c1 = c2 := by
  intro t1 c1 t2 c2 h
  have hdata : ("segment_".data ++ (natToString t1).data ++ ['_']) ++ (natToString c1).data
      = ("segment_".data ++ (natToString t2).data ++ ['_']) ++ (natToString c2).data := by
    have := congrArg String.data h
    simpa [segId, String.data_append, List.append_assoc] using this
  have hrev := congrArg List.reverse hdata
  simp only [List.reverse_append, List.reverse_cons, List.reverse_nil,
    List.nil_append, List.append_assoc, List.singleton_append] at hrev
  have hq1 : ∀ c ∈ (natToString c1).data.reverse, (c != '_') = true := by
    intro c hc
    have := natToString_no_underscore c1 c (List.mem_reverse.mp hc)
    simpa using this
  have hq2 : ∀ c ∈ (natToString c2).data.reverse, (c != '_') = true := by
    intro c hc
    have := natToString_no_underscore c2 c (List.mem_reverse.mp hc)
    simpa using this
  have hds_rev : (natToString c1).data.reverse = (natToString c2).data.reverse :=
    suffix_after_sep '_' _ _ _ _ hq1 hq2 hrev
  have hds : (natToString c1).data = (natToString c2).data := by
    have := congrArg List.reverse hds_rev
    simpa using this
  have hstr : natToString c1 = natToString c2 := by
    cases hs1 : natToString c1 with
    | mk d1 =>
      cases hs2 : natToString c2 with
      | mk d2 =>
        rw [hs1, hs2] at hds
        simp at hds
        simp [hds]
  exact natToString_inj c1 c2 hstr

theorem segId_ne_of_counter_ne (t1 c1 t2 c2 : Nat) (h : c1 ≠ c2) :
    segId t1 c1 ≠ segId t2 c2 :=
  fun hc => h (segId_counter_inj t1 c1 t2 c2 hc)

theorem expectedIds_mem :
    ∀ (evs : List (RecognitionResult × Nat)) (c : Nat) (s : String),
      s ∈ expectedIds c evs → ∃ t k, c ≤ k ∧ s = segId t k := by
  intro evs
  induction evs with
  | nil => intro c s hs; simp [expectedIds] at hs
  | cons e rest ih =>
    intro c s hs
    obtain ⟨r, t⟩ := e
    simp [expectedIds] at hs
    rcases hs with hs | hs
    · exact ⟨t, c, Nat.le_refl c, hs⟩
    · obtain ⟨t2, k, hk, hsk⟩ := ih (c + 1) s hs
      exact ⟨t2, k, by omega, hsk⟩

theorem expectedIds_pairwise :
    ∀ (evs : List (RecognitionResult × Nat)) (c : Nat),
      List.Pairwise Ne (expectedIds c evs) := by
  intro evs
  induction evs with
  | nil => intro c; simp [expectedIds]
  | cons e rest ih =>
    intro c
    obtain ⟨r, t⟩ := e
    simp only [expectedIds]
    refine List.Pairwise.cons ?_ (ih (c + 1))
    intro s hs
    obtain ⟨t2, k, hk, hsk⟩ := expectedIds_mem rest (c + 1) s hs
    rw [hsk]
    exact segId_ne_of_counter_ne t c t2 k (by omega)

theorem runAssembler_out (enableDiarization : Bool) :
    ∀ (evs : List (RecognitionResult × Nat)) (st : AssemblerState),
      (∀ e ∈ evs, e.1.isFinal = true ∧ jsTrim e.1.transcript ≠ "") →
      (runAssembler enableDiarization st evs).2.map TranscriptSegment.id
          = expectedIds st.segmentCounter evs
        ∧ (runAssembler enableDiarization st evs).2.map TranscriptSegment.timestamp
          = evs.map Prod.snd := by
  intro evs
  induction evs with
  | nil => intro st _; simp [runAssembler, expectedIds]
  | cons e rest ih =>
    intro st h
    obtain ⟨r, t⟩ := e
    have he : r.isFinal = true ∧ jsTrim r.transcript ≠ "" := h (r, t) (by simp)
    have hrest : ∀ e ∈ rest, e.1.isFinal = true ∧ jsTrim e.1.transcript ≠ "" :=
      fun e hm => h e (by simp [hm])
    have hon : onresult st enableDiarization r t
        = ({ segmentCounter := st.segmentCounter + 1,
             detector := (if enableDiarization then detectSpeaker st.detector t
                          else ("You", st.detector)).2 },
           some { id := segId t st.segmentCounter,
                  speaker := (if enableDiarization then detectSpeaker st.detector t
                              else ("You", st.detector)).1,
                  text := jsTrim r.transcript, timestamp := t, confidence := r.confidence }) := by
      simp [onresult, he.1, he.2]
    have ihr := ih { segmentCounter := st.segmentCounter + 1,
                     detector := (if enableDiarization then detectSpeaker st.detector t
                                  else ("You", st.detector)).2 } hrest
    constructor
    · simp only [runAssembler, hon, expectedIds]
      simp [ihr.1]
    · simp only [runAssembler, hon]
      simp [ihr.2]

/-
Claim theorems.
-/

/-- C1: on every reachable detector state, detectSpeaker(t) toggles
currentSpeaker between 1 and 2 exactly when lastSpeechTime is nonzero and
t minus lastSpeechTime is strictly greater than 2000 ms; in every other
case currentSpeaker is unchanged; and after the call lastSpeechTime
equals t. -/
theorem claim_C1 (s : DetectorState) (t : Nat) (hreach : DetReachable s) :
    (detectSpeaker s t).2.lastSpeechTime = t
    ∧ (s.lastSpeechTime ≠ 0 ∧ (2000 : Int) < (t : Int) - (s.lastSpeechTime : Int) →
        (detectSpeaker s t).2.currentSpeaker = (if s.currentSpeaker = 1 then 2 else 1)
        ∧ (detectSpeaker s t).2.currentSpeaker ≠ s.currentSpeaker
        ∧ ((detectSpeaker s t).2.currentSpeaker = 1 ∨ (detectSpeaker s t).2.currentSpeaker = 2))
    ∧ (¬(s.lastSpeechTime ≠ 0 ∧ (2000 : Int) < (t : Int) - (s.lastSpeechTime : Int)) →
        (detectSpeaker s t).2.currentSpeaker = s.currentSpeaker) := by
  have hmem := detReachable_speaker_mem s hreach
  have hcond : (SPEAKER_SWITCH_THRESHOLD < (t : Int) - (s.lastSpeechTime : Int)
        ∧ 0 < s.lastSpeechTime)
      ↔ (s.lastSpeechTime ≠ 0 ∧ (2000 : Int) < (t : Int) - (s.lastSpeechTime : Int)) := by
    unfold SPEAKER_SWITCH_THRESHOLD
    constructor
    · intro hx
      exact ⟨by omega, hx.1⟩
    · intro hx
      exact ⟨hx.2, by omega⟩
  refine ⟨by simp [detectSpeaker], ?_, ?_⟩
  · intro hc
    have hcode := hcond.mpr hc
    simp only [detectSpeaker, hcode, if_true, if_pos]
    rcases hmem with h1 | h2
    · simp [h1]
    · rw [h2]
      simp
  · intro hc
    have hcode : ¬(SPEAKER_SWITCH_THRESHOLD < (t : Int) - (s.lastSpeechTime : Int)
        ∧ 0 < s.lastSpeechTime) := fun hx => hc (hcond.mp hx)
    simp [detectSpeaker, hcode]

/-- C1 witness: after a first utterance at 500 ms (a reachable state with
nonzero lastSpeechTime), a call at 3000 ms has a 2500 ms gap, so the
speaker toggles from 1 to 2 and lastSpeechTime becomes 3000. -/
theorem claim_C1_witness :
    (detectSpeaker (detectSpeaker detectorInit 500).2 3000).2.lastSpeechTime = 3000
    ∧ (detectSpeaker (detectSpeaker detectorInit 500).2 3000).2.currentSpeaker
        = (if (detectSpeaker detectorInit 500).2.currentSpeaker = 1 then 2 else 1) :=
  ⟨(claim_C1 (detectSpeaker detectorInit 500).2 3000
      (DetReachable.step detectorInit 500 DetReachable.init)).1,
   ((claim_C1 (detectSpeaker detectorInit 500).2 3000
      (DetReachable.step detectorInit 500 DetReachable.init)).2.1 (by decide)).1⟩

/-- C8: from a fresh detector, detectSpeaker at 0, 500 and 3000 ms returns
Speaker 1, Speaker 1, Speaker 2: no toggle on the first utterance, none on
the 500 ms gap, a toggle on the 2500 ms gap. -/
theorem claim_C8 :
    (detectSpeaker detectorInit 0).1 = "Speaker 1"
    ∧ (detectSpeaker (detectSpeaker detectorInit 0).2 500).1 = "Speaker 1"
    ∧ (detectSpeaker (detectSpeaker (detectSpeaker detectorInit 0).2 500).2 3000).1
        = "Speaker 2" := by
  decide

/-- C7 counterexample: the claim says a no-speech error is not logged as an
error, but the handler runs console.error before the early return, so it
is logged (while the onError callback is indeed not invoked). -/
theorem claim_C7_counterexample :
    ¬((onerror "no-speech").loggedAsError = false)
    ∧ (onerror "no-speech").onErrorCalls = [] := by
  decide

/-- C7 amended: every error event, including no-speech and aborted, is
logged via console.error; no-speech and aborted are otherwise suppressed
(onError not invoked, no retry); every other code invokes onError exactly
once with that code; a retry is scheduled exactly for network and
audio-capture, and it fires only if the listening flag is still true. -/
theorem claim_C7 (e : String) :
    (onerror e).loggedAsError = true
    ∧ (e = "no-speech" ∨ e = "aborted" →
        (onerror e).onErrorCalls = [] ∧ (onerror e).retryScheduled = false)
    ∧ (¬(e = "no-speech" ∨ e = "aborted") → (onerror e).onErrorCalls = [e])
    ∧ ((onerror e).retryScheduled = true ↔
        ¬(e = "no-speech" ∨ e = "aborted") ∧ (e = "network" ∨ e = "audio-capture"))
    ∧ (∀ listening, retryFires (onerror e) listening
        = ((onerror e).retryScheduled && listening)) := by
  by_cases h1 : e = "no-speech"
  · subst h1
    refine ⟨rfl, fun _ => by decide, fun hc => absurd (Or.inl rfl) hc, by decide, fun l => rfl⟩
  · by_cases h2 : e = "aborted"
    · subst h2
      refine ⟨rfl, fun _ => by decide, fun hc => absurd (Or.inr rfl) hc, by decide, fun l => rfl⟩
    · have hval : onerror e
          = { loggedAsError := true, onErrorCalls := [e],
              retryScheduled := (e == "network" || e == "audio-capture") } := by
        simp [onerror, h1, h2]
      refine ⟨by rw [hval], fun hc => absurd hc (by simp [h1, h2]), fun _ => by rw [hval], ?_,
        fun l => rfl⟩
      rw [hval]
      constructor
      · intro hb
        simp at hb
        exact ⟨by simp [h1, h2], by rcases hb with hb | hb <;> simp [hb]⟩
      · intro ⟨_, hb⟩
        simp
        rcases hb with hb | hb <;> simp [hb]

/-- C7 witness: a network error is logged, reported to onError once,
scheduled for retry, and the retry fires only while still listening. -/
theorem claim_C7_witness :
    (onerror "network").onErrorCalls = ["network"]
    ∧ (onerror "network").retryScheduled = true :=
  ⟨(claim_C7 "network").2.2.1 (by decide),
   ((claim_C7 "network").2.2.2.1).mpr (by decide)⟩

/-- C10: translate on empty or whitespace-only text resolves, with no
network request, to an empty translatedText (not the original whitespace)
echoing the sourceLanguage and targetLanguage arguments. -/
theorem claim_C10 (text targetLang sourceLang : String) (resp : NetResponse)
    (h : jsTrim text = "") :
    TranslationService.translate text targetLang sourceLang resp
      = { translatedText := "", sourceLanguage := sourceLang,
          targetLanguage := targetLang, confidence := none }
    ∧ translateIssuesRequest text = false := by
  constructor
  · simp [TranslationService.translate, h]
  · simp [translateIssuesRequest, h]

/-- C10 witness: a two-space input with a thrown network layer still
yields the empty translation without a request. -/
theorem claim_C10_witness :
    TranslationService.translate "  " "es" "auto" NetResponse.thrown
      = { translatedText := "", sourceLanguage := "auto",
          targetLanguage := "es", confidence := none }
    ∧ translateIssuesRequest "  " = false :=
  claim_C10 "  " "es" "auto" NetResponse.thrown (by decide)

/-- C5: an interim recognition result emits no segment and leaves the
handler state unchanged; a final result with non-empty trimmed text emits
exactly one segment whose text is the trimmed transcript and whose speaker
comes from the SpeakerDetector when diarization is enabled and is the
fixed label You otherwise; one interim followed by one final result with
the same text yields exactly one segment. -/
theorem claim_C5 (st : AssemblerState) (enableDiarization : Bool) (transcript : String)
    (conf : Option Nat) (now : Nat) :
    onresult st enableDiarization
        { transcript := transcript, confidence := conf, isFinal := false } now = (st, none)
    ∧ (jsTrim transcript ≠ "" →
        onresult st enableDiarization
            { transcript := transcript, confidence := conf, isFinal := true } now
          = ({ segmentCounter := st.segmentCounter + 1,
               detector := (if enableDiarization then detectSpeaker st.detector now
                            else ("You", st.detector)).2 },
             some { id := segId now st.segmentCounter,
                    speaker := if enableDiarization then (detectSpeaker st.detector now).1
                               else "You",
                    text := jsTrim transcript, timestamp := now, confidence := conf }))
    ∧ (jsTrim transcript ≠ "" →
        (runAssembler enableDiarization st
          [({ transcript := transcript, confidence := conf, isFinal := false }, now),
           ({ transcript := transcript, confidence := conf, isFinal := true }, now)]).2.length
          = 1) := by
  refine ⟨by simp [onresult], ?_, ?_⟩
  · intro h
    cases enableDiarization <;> simp [onresult, h]
  · intro h
    simp [runAssembler, onresult, h]

/-- C5 witness: with diarization disabled, an interim event at 5 ms emits
nothing, and the interim-then-final pair emits exactly one segment. -/
theorem claim_C5_witness :
    onresult { segmentCounter := 0, detector := detectorInit } false
        { transcript := "hi", confidence := none, isFinal := false } 5
      = ({ segmentCounter := 0, detector := detectorInit }, none)
    ∧ (runAssembler false { segmentCounter := 0, detector := detectorInit }
        [({ transcript := "hi", confidence := none, isFinal := false }, 5),
         ({ transcript := "hi", confidence := none, isFinal := true }, 5)]).2.length = 1 :=
  ⟨(claim_C5 { segmentCounter := 0, detector := detectorInit } false "hi" none 5).1,
   (claim_C5 { segmentCounter := 0, detector := detectorInit } false "hi" none 5).2.2
     (by decide)⟩

/-- C6: over any sequence of final results with non-empty trimmed text and
strictly increasing timestamps, the emitted segments carry those
timestamps in the same order, their ids are exactly the template ids built
from the timestamp and the strictly increasing per-session counter, and
all ids are pairwise distinct. -/
theorem claim_C6 (enableDiarization : Bool) (st : AssemblerState)
    (evs : List (RecognitionResult × Nat))
    (hfin : ∀ e ∈ evs, e.1.isFinal = true ∧ jsTrim e.1.transcript ≠ "")
    (hinc : List.Chain' (· < ·) (evs.map Prod.snd)) :
    (runAssembler enableDiarization st evs).2.map TranscriptSegment.timestamp = evs.map Prod.snd
    ∧ List.Chain' (fun a b => a.timestamp < b.timestamp) (runAssembler enableDiarization st evs).2
    ∧ (runAssembler enableDiarization st evs).2.map TranscriptSegment.id
        = expectedIds st.segmentCounter evs
    ∧ List.Pairwise (fun a b => a.id ≠ b.id) (runAssembler enableDiarization st evs).2 := by
  obtain ⟨hid, hts⟩ := runAssembler_out enableDiarization evs st hfin
  refine ⟨hts, ?_, hid, ?_⟩
  · rw [← hts] at hinc
    exact (List.chain'_map _).mp hinc
  · have hpw : List.Pairwise Ne
        ((runAssembler enableDiarization st evs).2.map TranscriptSegment.id) := by
      rw [hid]
      exact expectedIds_pairwise evs st.segmentCounter
    exact (List.pairwise_map).mp hpw

/-- C6 witness: two final results at 1 ms and 2 ms produce segments with
timestamps 1 then 2 and pairwise distinct ids. -/
theorem claim_C6_witness :
    (runAssembler true { segmentCounter := 0, detector := detectorInit }
      [({ transcript := "a", confidence := none, isFinal := true }, 1),
       ({ transcript := "b", confidence := none, isFinal := true }, 2)]).2.map
        TranscriptSegment.timestamp = [1, 2]
    ∧ List.Pairwise (fun a b => a.id ≠ b.id)
        (runAssembler true { segmentCounter := 0, detector := detectorInit }
          [({ transcript := "a", confidence := none, isFinal := true }, 1),
           ({ transcript := "b", confidence := none, isFinal := true }, 2)]).2 :=
  ⟨(claim_C6 true { segmentCounter := 0, detector := detectorInit }
      [({ transcript := "a", confidence := none, isFinal := true }, 1),
       ({ transcript := "b", confidence := none, isFinal := true }, 2)]
      (by decide) (by simp [List.chain'_cons])).1,
   (claim_C6 true { segmentCounter := 0, detector := detectorInit }
      [({ transcript := "a", confidence := none, isFinal := true }, 1),
       ({ transcript := "b", confidence := none, isFinal := true }, 2)]
      (by decide) (by simp [List.chain'_cons])).2.2.2⟩

/-- C2 counterexample: the second enqueue carries the non-empty text b,
yet because the first item is still processing its promise resolves to
null (promise id 1 settles with none), not to the translation of b. -/
theorem claim_C2_counterexample :
    jsTrim "b" ≠ ""
    ∧ (streamRun (streamInit "es" "auto")
        [StreamEv.enqueue "a", StreamEv.enqueue "b"]).resolved = [(1, none)] := by
  decide

/-- C2 amended: addText with empty trimmed text resolves to null without
touching the queue or issuing a request; with non-empty text on an idle
relay the request starts at once and the promise resolves to the
translation of that text when the request completes; with non-empty text
while another item is processing the text is queued for later translation
but the promise resolves to null immediately. -/
theorem claim_C2 (s : StreamState) (text : String) :
    (jsTrim text = "" →
      addText s text
        = { s with nextId := s.nextId + 1, resolved := s.resolved ++ [(s.nextId, none)] })
    ∧ (jsTrim text ≠ "" → s.isProcessing = false → s.pendingTexts = [] → s.inFlight = [] →
      addText s text
        = { s with nextId := s.nextId + 1, isProcessing := true,
                   inFlight := [{ text := text, target := s.targetLang,
                                  source := s.sourceLang, origin := some s.nextId }] }
      ∧ ∀ resp, (completeRequest (addText s text) resp).resolved
          = s.resolved ++ [(s.nextId,
              some (TranslationService.translate text s.targetLang s.sourceLang resp))])
    ∧ (jsTrim text ≠ "" → s.isProcessing = true →
      addText s text
        = { s with nextId := s.nextId + 1, pendingTexts := s.pendingTexts ++ [text],
                   resolved := s.resolved ++ [(s.nextId, none)] }) := by
  refine ⟨fun h => addText_empty s text h, ?_, fun h1 h2 => addText_busy s text h1 h2⟩
  intro h1 h2 h3 h4
  have he := addText_idle s text h1 h2 h3
  rw [h4] at he
  simp only [List.nil_append] at he
  refine ⟨he, ?_⟩
  intro resp
  rw [he]
  rw [completeRequest_empty _ resp
      { text := text, target := s.targetLang, source := s.sourceLang, origin := some s.nextId }
      [] rfl (by simp [h3])]
  simp [resolvePromise]

/-- C2 witness: enqueueing hola on a fresh idle relay and completing its
request with a non-2xx response resolves promise 0 to the fail-open
translation of hola. -/
theorem claim_C2_witness :
    (completeRequest (addText (streamInit "es" "auto") "hola") NetResponse.notOk).resolved
      = [(0, some { translatedText := "hola", sourceLanguage := "auto",
                    targetLanguage := "es", confidence := none })] :=
  ((claim_C2 (streamInit "es" "auto") "hola").2.1 (by decide) rfl rfl rfl).2 NetResponse.notOk

/-- C3: over any run of the relay, at most one translation request is in
flight at a time; when the relay is quiescent every issued addText promise
has been settled; and a completion delivered while the queue is non-empty
starts the next item immediately with no further external call. -/
theorem claim_C3 (targetLang sourceLang : String) (evs : List StreamEv) :
    (streamRun (streamInit targetLang sourceLang) evs).inFlight.length ≤ 1
    ∧ ((streamRun (streamInit targetLang sourceLang) evs).isProcessing = false →
        ∀ i, i < (streamRun (streamInit targetLang sourceLang) evs).nextId →
          ∃ r, (i, r) ∈ (streamRun (streamInit targetLang sourceLang) evs).resolved)
    ∧ (∀ (resp : NetResponse) (fl : InFlight) (t : String) (rest : List String),
        (streamRun (streamInit targetLang sourceLang) evs).inFlight = [fl] →
        (streamRun (streamInit targetLang sourceLang) evs).pendingTexts = t :: rest →
        (streamStep (streamRun (streamInit targetLang sourceLang) evs)
            (StreamEv.complete resp)).inFlight
          = [{ text := t,
               target := (streamRun (streamInit targetLang sourceLang) evs).targetLang,
               source := (streamRun (streamInit targetLang sourceLang) evs).sourceLang,
               origin := none }]
        ∧ (streamStep (streamRun (streamInit targetLang sourceLang) evs)
            (StreamEv.complete resp)).pendingTexts = rest) := by
  obtain ⟨h1, h2, h3⟩ :=
    streamInv_run (streamInit targetLang sourceLang) evs (streamInv_init targetLang sourceLang)
  refine ⟨?_, ?_, ?_⟩
  · rw [h1]
    split <;> simp
  · intro hp i hi
    rcases h3 i hi with hres | ⟨fl, hfl, _⟩
    · exact hres
    · rw [hp] at h1
      simp at h1
      rw [h1] at hfl
      simp at hfl
  · intro resp fl t rest hf hp
    have hd := completeRequest_drain _ resp fl [] t rest hf hp
    constructor
    · show (completeRequest _ resp).inFlight = _
      rw [hd]
      simp [resolvePromise_inFlight]
    · show (completeRequest _ resp).pendingTexts = _
      rw [hd]
      simp [resolvePromise_pendingTexts]

/-- C3 witness: two enqueues followed by two completions settle both
promises; and delivering the first completion while the queue holds the
second text starts that text and empties the queue. -/
theorem claim_C3_witness :
    (∃ r, (0, r) ∈ (streamRun (streamInit "es" "auto")
        [StreamEv.enqueue "hi", StreamEv.enqueue "yo",
         StreamEv.complete NetResponse.notOk, StreamEv.complete NetResponse.notOk]).resolved)
    ∧ (∃ r, (1, r) ∈ (streamRun (streamInit "es" "auto")
        [StreamEv.enqueue "hi", StreamEv.enqueue "yo",
         StreamEv.complete NetResponse.notOk, StreamEv.complete NetResponse.notOk]).resolved)
    ∧ (streamStep (streamRun (streamInit "es" "auto")
          [StreamEv.enqueue "hi", StreamEv.enqueue "yo"])
        (StreamEv.complete NetResponse.notOk)).pendingTexts = [] :=
  ⟨(claim_C3 "es" "auto"
      [StreamEv.enqueue "hi", StreamEv.enqueue "yo",
       StreamEv.complete NetResponse.notOk, StreamEv.complete NetResponse.notOk]).2.1
      (by decide) 0 (by decide),
   (claim_C3 "es" "auto"
      [StreamEv.enqueue "hi", StreamEv.enqueue "yo",
       StreamEv.complete NetResponse.notOk, StreamEv.complete NetResponse.notOk]).2.1
      (by decide) 1 (by decide),
   ((claim_C3 "es" "auto" [StreamEv.enqueue "hi", StreamEv.enqueue "yo"]).2.2
      NetResponse.notOk { text := "hi", target := "es", source := "auto", origin := some 0 }
      "yo" [] (by decide) (by decide)).2⟩

/-- C4: when the translation request fails (network error, non-2xx, or a
2xx response missing translatedText) translate resolves with the original
input text unchanged, and a completion carrying such a failure still
dequeues and starts the next pending item, so processing is not halted. -/
theorem claim_C4 (text targetLang sourceLang : String) (resp : NetResponse)
    (hne : jsTrim text ≠ "")
    (hfail : resp = NetResponse.thrown ∨ resp = NetResponse.notOk
      ∨ ∃ dl, resp = NetResponse.ok none dl) :
    (TranslationService.translate text targetLang sourceLang resp).translatedText = text
    ∧ (∀ (s : StreamState) (fl : InFlight) (rest : List InFlight) (t : String) (ts : List String),
        s.inFlight = fl :: rest → s.pendingTexts = t :: ts →
        (completeRequest s resp).inFlight
          = rest ++ [{ text := t, target := s.targetLang, source := s.sourceLang,
                       origin := none }]
        ∧ (completeRequest s resp).pendingTexts = ts) := by
  constructor
  · rcases hfail with h | h | ⟨dl, h⟩ <;> subst h <;>
      simp [TranslationService.translate, hne, jsOrString]
  · intro s fl rest t ts hf hp
    rw [completeRequest_drain s resp fl rest t ts hf hp]
    exact ⟨by simp [resolvePromise_inFlight], by simp [resolvePromise_pendingTexts]⟩

/-- C4 witness: a thrown fetch for hola returns hola unchanged, and the
failing completion still starts the queued item next. -/
theorem claim_C4_witness :
    (TranslationService.translate "hola" "es" "auto" NetResponse.thrown).translatedText = "hola"
    ∧ (completeRequest
        { pendingTexts := ["next"], isProcessing := true,
          inFlight := [{ text := "hola", target := "es", source := "auto", origin := some 0 }],
          targetLang := "es", sourceLang := "auto", resolved := [], nextId := 1 }
        NetResponse.thrown).pendingTexts = [] :=
  ⟨(claim_C4 "hola" "es" "auto" NetResponse.thrown (by decide) (Or.inl rfl)).1,
   ((claim_C4 "hola" "es" "auto" NetResponse.thrown (by decide) (Or.inl rfl)).2
      { pendingTexts := ["next"], isProcessing := true,
        inFlight := [{ text := "hola", target := "es", source := "auto", origin := some 0 }],
        targetLang := "es", sourceLang := "auto", resolved := [], nextId := 1 }
      { text := "hola", target := "es", source := "auto", origin := some 0 }
      [] "next" [] rfl rfl).2⟩

/-- C9 counterexample: b is enqueued while the target language is es, the
target is then changed to fr, and when b is dequeued its request is issued
with fr, not the language in effect at its enqueue. -/
theorem claim_C9_counterexample :
    (streamRun (streamInit "es" "auto")
      [StreamEv.enqueue "a", StreamEv.enqueue "b", StreamEv.setLang "fr",
       StreamEv.complete (NetResponse.ok (some "X") none)]).inFlight
      = [{ text := "b", target := "fr", source := "auto", origin := none }]
    ∧ "fr" ≠ "es" := by
  decide

/-- C9 amended: each item is translated into the target language in effect
at the moment its request starts (dequeue time): a queued item started by
a completion uses the current targetLang regardless of the language at its
enqueue, and an item enqueued on an idle relay starts immediately, so for
it the enqueue-time language applies. -/
theorem claim_C9 :
    (∀ (s : StreamState) (resp : NetResponse) (fl : InFlight) (t : String) (ts : List String),
        s.inFlight = [fl] → s.pendingTexts = t :: ts →
        (completeRequest s resp).inFlight
          = [{ text := t, target := s.targetLang, source := s.sourceLang, origin := none }])
    ∧ (∀ (s : StreamState) (text : String),
        jsTrim text ≠ "" → s.isProcessing = false → s.pendingTexts = [] →
        (addText s text).inFlight
          = s.inFlight ++ [{ text := text, target := s.targetLang, source := s.sourceLang,
                             origin := some s.nextId }]) := by
  constructor
  · intro s resp fl t ts hf hp
    rw [completeRequest_drain s resp fl [] t ts hf hp]
    simp [resolvePromise_inFlight]
  · intro s text h1 h2 h3
    rw [addText_idle s text h1 h2 h3]

/-- C9 witness: in the state reached after enqueue a, enqueue b, setLang
fr, completing the request for a starts b with target fr. -/
theorem claim_C9_witness :
    (completeRequest
      { pendingTexts := ["b"], isProcessing := true,
        inFlight := [{ text := "a", target := "es", source := "auto", origin := some 0 }],
        targetLang := "fr", sourceLang := "auto", resolved := [(1, none)], nextId := 2 }
      (NetResponse.ok (some "X") none)).inFlight
      = [{ text := "b", target := "fr", source := "auto", origin := none }] :=
  claim_C9.1
    { pendingTexts := ["b"], isProcessing := true,
      inFlight := [{ text := "a", target := "es", source := "auto", origin := some 0 }],
      targetLang := "fr", sourceLang := "auto", resolved := [(1, none)], nextId := 2 }
    (NetResponse.ok (some "X") none)
    { text := "a", target := "es", source := "auto", origin := some 0 }
    "b" [] rfl rfl
